import Mathlib

/-!
Sorted-list helpers of `projectexplorer/projectnodes.h`.

A shallow embedding of the three function templates at the end of
`src/plugins/projectexplorer/projectnodes.h`:

* `isSorted(list, sorter)`
* `compareSortedLists(oldList, newList, removedList, addedList, sorter)`
* `subtractSortedList(list1, list2, sorter)`

A `QList<T>` is a `List α`; a `const_iterator` running towards `constEnd()` is the
suffix of the list that is still ahead of it (`*it` is the head of the suffix,
`++it` drops the head, `it == end` is the empty suffix).  The `sorter` functor is a
function `α → α → Bool`.  Output parameters passed by reference are threaded
through as extra arguments and returned.
-/

namespace ProjectExplorer

/-! ## Definitions -/

/-- How a call ends: it returns a value, it is aborted by a failing `Q_ASSERT`,
or its loop is still executing when the iteration budget of the model is spent. -/
inductive Outcome (β : Type) where
  | returned (value : β)
  | assertFailed
  | running
  deriving DecidableEq

/-- Apply a function to the value a call returns. -/
def Outcome.map {β γ : Type} (f : β → γ) : Outcome β → Outcome γ
  | Outcome.returned v => Outcome.returned (f v)
  | Outcome.assertFailed => Outcome.assertFailed
  | Outcome.running => Outcome.running

/-- Qt's `Q_ASSERT(cond)` followed by the rest of the function body `rest`.
The macro is not defined in this repository; it is taken with Qt's documented
meaning: when `QT_NO_DEBUG` is defined (release builds) it expands to nothing,
otherwise a false condition aborts the program. -/
def Q_ASSERT {β : Type} (QT_NO_DEBUG : Bool) (cond : Bool) (rest : Outcome β) : Outcome β :=
  if QT_NO_DEBUG then rest
  else if cond then rest
  else Outcome.assertFailed

/-- The `while (iit != end)` loop of `isSorted`: `it` points at `a`, `iit` at the
head of the second argument. -/
def isSortedLoop {α : Type} (sorter : α → α → Bool) : α → List α → Bool
  | _, [] => true
  | a, b :: rest =>
    if !sorter a b then false
    else isSortedLoop sorter b rest

/-- The function `isSorted(list, sorter)`. -/
def isSorted {α : Type} (sorter : α → α → Bool) : List α → Bool
  | [] => true
  | a :: rest => isSortedLoop sorter a rest

/-- The first loop of `compareSortedLists`,
`while (oldIt != oldEnd && newIt != newEnd)`.  Returns the two iterators and the two
output lists as they stand when the loop is left. -/
def compareMainLoop {α : Type} (sorter : α → α → Bool) :
    List α → List α → List α → List α → List α × List α × List α × List α
  | [], newIt, removedList, addedList => ([], newIt, removedList, addedList)
  | x :: oldIt, [], removedList, addedList => (x :: oldIt, [], removedList, addedList)
  | x :: oldIt, y :: newIt, removedList, addedList =>
    if sorter x y then
      compareMainLoop sorter oldIt (y :: newIt) (removedList ++ [x]) addedList
    else if sorter y x then
      compareMainLoop sorter (x :: oldIt) newIt removedList (addedList ++ [y])
    else
      compareMainLoop sorter oldIt newIt removedList addedList
termination_by oldIt newIt => oldIt.length + newIt.length

/-- The loops `while (it != end) { out.append(*it); ++it; }` that close
`compareSortedLists` and `subtractSortedList`. -/
def appendRemaining {α : Type} : List α → List α → List α
  | [], out => out
  | x :: it, out => appendRemaining it (out ++ [x])

/-- The body of `compareSortedLists` after the two assertions: the main loop and
the two closing loops.  Returns the final `(removedList, addedList)`. -/
def compareBody {α : Type} (sorter : α → α → Bool)
    (oldList newList removedList addedList : List α) : List α × List α :=
  match compareMainLoop sorter oldList newList removedList addedList with
  | (oldIt, newIt, removed, added) =>
    (appendRemaining oldIt removed, appendRemaining newIt added)

/-- The function `compareSortedLists(oldList, newList, removedList, addedList, sorter)`;
the value returned is the final content of `(removedList, addedList)`. -/
def compareSortedLists {α : Type} (QT_NO_DEBUG : Bool) (sorter : α → α → Bool)
    (oldList newList removedList addedList : List α) : Outcome (List α × List α) :=
  Q_ASSERT QT_NO_DEBUG (isSorted sorter oldList) <|
  Q_ASSERT QT_NO_DEBUG (isSorted sorter newList) <|
  Outcome.returned (compareBody sorter oldList newList removedList addedList)

/-- The first loop of `subtractSortedList`,
`while (list1It != list1End && list2It != list2End)`, run for at most `fuel`
iterations.  The state is the two iterators, `result`, and the number of `qWarning`
messages written so far; `none` means the loop has not been left after `fuel`
iterations.  The `qWarning` branch moves neither iterator. -/
def subtractMainLoop {α : Type} (sorter : α → α → Bool) :
    Nat → List α → List α → List α → Nat → Option (List α × List α × List α × Nat)
  | 0, _, _, _, _ => none
  | _ + 1, [], list2It, result, warnings => some ([], list2It, result, warnings)
  | _ + 1, x :: list1It, [], result, warnings => some (x :: list1It, [], result, warnings)
  | fuel + 1, x :: list1It, y :: list2It, result, warnings =>
    if sorter x y then
      subtractMainLoop sorter fuel list1It (y :: list2It) (result ++ [x]) warnings
    else if sorter y x then
      subtractMainLoop sorter fuel (x :: list1It) (y :: list2It) result (warnings + 1)
    else
      subtractMainLoop sorter fuel list1It list2It result warnings

/-- The body of `subtractSortedList` after the two assertions, with `result`
starting empty.  Returns `result` and the number of warnings written. -/
def subtractBody {α : Type} (sorter : α → α → Bool) (fuel : Nat)
    (list1 list2 : List α) : Outcome (List α × Nat) :=
  match subtractMainLoop sorter fuel list1 list2 [] 0 with
  | none => Outcome.running
  | some (list1It, _, result, warnings) =>
    Outcome.returned (appendRemaining list1It result, warnings)

/-- The function `subtractSortedList(list1, list2, sorter)`, its main loop run for at
most `fuel` iterations.  The value returned is the list the function returns together
with the number of `qWarning` messages it wrote. -/
def subtractSortedList {α : Type} (QT_NO_DEBUG : Bool) (sorter : α → α → Bool) (fuel : Nat)
    (list1 list2 : List α) : Outcome (List α × Nat) :=
  Q_ASSERT QT_NO_DEBUG (isSorted sorter list1) <|
  Q_ASSERT QT_NO_DEBUG (isSorted sorter list2) <|
  subtractBody sorter fuel list1 list2

/-- Two elements are comparator-equal when neither is less than the other. -/
def comparatorEqual {α : Type} (less : α → α → Bool) (a b : α) : Bool :=
  !less a b && !less b a

/-- The element `x` is comparator-equal to no element of `list2`. -/
def notMatchedBy {α : Type} (less : α → α → Bool) (list2 : List α) (x : α) : Bool :=
  !list2.any (fun y => comparatorEqual less x y)

/-- The list is non-decreasing under `less`: no adjacent pair `(a, b)` has
`less(b, a)`; adjacent comparator-equal elements are allowed. -/
def nonDecreasing {α : Type} (less : α → α → Bool) (l : List α) : Bool :=
  isSorted (fun a b => !less b a) l

/-- A strict weak ordering: irreflexive, transitive, and with a transitive
comparator-equality. -/
structure StrictWeakOrdering {α : Type} (less : α → α → Bool) : Prop where
  irrefl : ∀ a, less a a = false
  trans : ∀ a b c, less a b = true → less b c = true → less a c = true
  equivTrans : ∀ a b c, comparatorEqual less a b = true → comparatorEqual less b c = true →
    comparatorEqual less a c = true

/-- The numeric `<` on natural numbers as a comparator. -/
def natLess (a b : Nat) : Bool := decide (a < b)

/-! ## Theorems -/

theorem appendRemaining_eq {α : Type} (it out : List α) :
    appendRemaining it out = out ++ it := by
  induction it generalizing out with
  | nil => simp [appendRemaining]
  | cons x it ih => simp [appendRemaining, ih]

/-! ### The comparator -/

theorem comparatorEqual_eq_true {α : Type} (less : α → α → Bool) (a b : α) :
    comparatorEqual less a b = true ↔ less a b = false ∧ less b a = false := by
  simp [comparatorEqual]

theorem comparatorEqual_eq_false_of_lt {α : Type} (less : α → α → Bool) (a b : α)
    (h : less a b = true) : comparatorEqual less a b = false := by
  simp [comparatorEqual, h]

theorem comparatorEqual_eq_false_of_gt {α : Type} (less : α → α → Bool) (a b : α)
    (h : less b a = true) : comparatorEqual less a b = false := by
  simp [comparatorEqual, h]

theorem comparatorEqual_comm {α : Type} (less : α → α → Bool) (a b : α) :
    comparatorEqual less a b = comparatorEqual less b a := by
  simp [comparatorEqual, Bool.and_comm]

theorem StrictWeakOrdering.asymm {α : Type} {less : α → α → Bool}
    (h : StrictWeakOrdering less) {a b : α} (hab : less a b = true) : less b a = false := by
  cases hba : less b a with
  | false => rfl
  | true =>
    have haa := h.trans a b a hab hba
    rw [h.irrefl a] at haa
    exact absurd haa (by decide)

/-- If `a` is comparator-equal to `b` and `b` is less than `c`, then `a` is less than `c`. -/
theorem StrictWeakOrdering.lt_of_equiv_of_lt {α : Type} {less : α → α → Bool}
    (h : StrictWeakOrdering less) {a b c : α} (hab : comparatorEqual less a b = true)
    (hbc : less b c = true) : less a c = true := by
  cases hac : less a c with
  | true => rfl
  | false =>
    exfalso
    cases hca : less c a with
    | true =>
      have hba := h.trans b c a hbc hca
      rw [comparatorEqual_eq_true] at hab
      rw [hab.2] at hba
      exact absurd hba (by decide)
    | false =>
      have hac2 : comparatorEqual less a c = true := by
        rw [comparatorEqual_eq_true]; exact ⟨hac, hca⟩
      have hba : comparatorEqual less b a = true := by
        rw [comparatorEqual_comm]; exact hab
      have hbc2 := h.equivTrans b a c hba hac2
      rw [comparatorEqual_eq_true] at hbc2
      rw [hbc2.1] at hbc
      exact absurd hbc (by decide)

/-- If `a` is less than `b` and `b` is comparator-equal to `c`, then `a` is less than `c`. -/
theorem StrictWeakOrdering.lt_of_lt_of_equiv {α : Type} {less : α → α → Bool}
    (h : StrictWeakOrdering less) {a b c : α} (hab : less a b = true)
    (hbc : comparatorEqual less b c = true) : less a c = true := by
  cases hac : less a c with
  | true => rfl
  | false =>
    exfalso
    cases hca : less c a with
    | true =>
      have hcb := h.trans c a b hca hab
      rw [comparatorEqual_eq_true] at hbc
      rw [hbc.2] at hcb
      exact absurd hcb (by decide)
    | false =>
      have hca2 : comparatorEqual less c a = true := by
        rw [comparatorEqual_eq_true]; exact ⟨hca, hac⟩
      have hba := h.equivTrans b c a hbc hca2
      rw [comparatorEqual_eq_true] at hba
      rw [hba.2] at hab
      exact absurd hab (by decide)

theorem natLess_strictWeakOrdering : StrictWeakOrdering natLess where
  irrefl := by intro a; simp [natLess]
  trans := by
    intro a b c hab hbc
    simp only [natLess, decide_eq_true_eq] at *
    omega
  equivTrans := by
    intro a b c hab hbc
    simp only [comparatorEqual, natLess, Bool.and_eq_true, Bool.not_eq_true', decide_eq_false_iff_not] at *
    omega

/-! ### `isSorted` -/

theorem isSorted_cons_cons {α : Type} (sorter : α → α → Bool) (a b : α) (l : List α) :
    isSorted sorter (a :: b :: l) = (sorter a b && isSorted sorter (b :: l)) := by
  cases h : sorter a b <;> simp [isSorted, isSortedLoop, h]

theorem isSorted_tail {α : Type} (sorter : α → α → Bool) (a : α) (l : List α)
    (h : isSorted sorter (a :: l) = true) : isSorted sorter l = true := by
  cases l with
  | nil => rfl
  | cons b l =>
    rw [isSorted_cons_cons, Bool.and_eq_true] at h
    exact h.2

/-- In a list accepted by `isSorted` under a transitive comparator, the head is
less than every later element. -/
theorem isSorted_head_lt {α : Type} {less : α → α → Bool}
    (htrans : ∀ a b c, less a b = true → less b c = true → less a c = true)
    (a : α) (l : List α) (h : isSorted less (a :: l) = true) :
    ∀ b ∈ l, less a b = true := by
  induction l generalizing a with
  | nil => intro b hb; cases hb
  | cons c l ih =>
    rw [isSorted_cons_cons, Bool.and_eq_true] at h
    intro b hb
    rcases List.mem_cons.1 hb with rfl | hb
    · exact h.1
    · exact htrans a c b h.1 (ih c h.2 b hb)

/-! ### `compareSortedLists` -/

/-- Induction along the branches of the main loop of `compareSortedLists`. -/
theorem compare_induction {α : Type} (sorter : α → α → Bool) {motive : List α → List α → Prop}
    (nil_left : ∀ newIt, motive [] newIt)
    (nil_right : ∀ x oldIt, motive (x :: oldIt) [])
    (lt : ∀ x oldIt y newIt, sorter x y = true →
      motive oldIt (y :: newIt) → motive (x :: oldIt) (y :: newIt))
    (gt : ∀ x oldIt y newIt, sorter x y = false → sorter y x = true →
      motive (x :: oldIt) newIt → motive (x :: oldIt) (y :: newIt))
    (eq : ∀ x oldIt y newIt, sorter x y = false → sorter y x = false →
      motive oldIt newIt → motive (x :: oldIt) (y :: newIt))
    (oldIt newIt : List α) : motive oldIt newIt := by
  induction oldIt generalizing newIt with
  | nil => exact nil_left newIt
  | cons x oldIt ihOld =>
    induction newIt with
    | nil => exact nil_right x oldIt
    | cons y newIt ihNew =>
      cases hxy : sorter x y with
      | true => exact lt x oldIt y newIt hxy (ihOld (y :: newIt))
      | false =>
        cases hyx : sorter y x with
        | true => exact gt x oldIt y newIt hxy hyx ihNew
        | false => exact eq x oldIt y newIt hxy hyx (ihOld newIt)

/-- The main loop only appends to the output lists it is given. -/
theorem compareMainLoop_acc {α : Type} (sorter : α → α → Bool)
    (oldIt newIt removedList addedList : List α) :
    compareMainLoop sorter oldIt newIt removedList addedList =
      ((compareMainLoop sorter oldIt newIt [] []).1,
       (compareMainLoop sorter oldIt newIt [] []).2.1,
       removedList ++ (compareMainLoop sorter oldIt newIt [] []).2.2.1,
       addedList ++ (compareMainLoop sorter oldIt newIt [] []).2.2.2) := by
  induction oldIt, newIt using compare_induction sorter generalizing removedList addedList with
  | nil_left newIt => simp [compareMainLoop]
  | nil_right x oldIt => simp [compareMainLoop]
  | lt x oldIt y newIt hxy ih =>
    rw [compareMainLoop, if_pos hxy, ih]
    conv_rhs => rw [compareMainLoop, if_pos hxy, ih]
    simp
  | gt x oldIt y newIt hxy hyx ih =>
    rw [compareMainLoop, if_neg (by simp [hxy]), if_pos hyx, ih]
    conv_rhs => rw [compareMainLoop, if_neg (by simp [hxy]), if_pos hyx, ih]
    simp
  | eq x oldIt y newIt hxy hyx ih =>
    rw [compareMainLoop, if_neg (by simp [hxy]), if_neg (by simp [hyx]), ih]
    conv_rhs => rw [compareMainLoop, if_neg (by simp [hxy]), if_neg (by simp [hyx])]

/-- The body of `compareSortedLists` only appends to the output lists it is given. -/
theorem compareBody_acc {α : Type} (sorter : α → α → Bool)
    (oldList newList removedList addedList : List α) :
    compareBody sorter oldList newList removedList addedList =
      (removedList ++ (compareBody sorter oldList newList [] []).1,
       addedList ++ (compareBody sorter oldList newList [] []).2) := by
  unfold compareBody
  rw [compareMainLoop_acc]
  simp [appendRemaining_eq]

theorem compareBody_nil_left {α : Type} (sorter : α → α → Bool) (newList : List α) :
    compareBody sorter [] newList [] [] = ([], newList) := by
  simp [compareBody, compareMainLoop, appendRemaining_eq]

theorem compareBody_nil_right {α : Type} (sorter : α → α → Bool) (oldList : List α) :
    compareBody sorter oldList [] [] [] = (oldList, []) := by
  cases oldList <;> simp [compareBody, compareMainLoop, appendRemaining_eq]

theorem compareBody_lt {α : Type} (sorter : α → α → Bool) (x y : α) (oldIt newIt : List α)
    (hxy : sorter x y = true) :
    compareBody sorter (x :: oldIt) (y :: newIt) [] [] =
      (x :: (compareBody sorter oldIt (y :: newIt) [] []).1,
       (compareBody sorter oldIt (y :: newIt) [] []).2) := by
  have h := compareBody_acc sorter oldIt (y :: newIt) [x] []
  unfold compareBody at h ⊢
  rw [compareMainLoop, if_pos hxy]
  simpa using h

theorem compareBody_gt {α : Type} (sorter : α → α → Bool) (x y : α) (oldIt newIt : List α)
    (hxy : sorter x y = false) (hyx : sorter y x = true) :
    compareBody sorter (x :: oldIt) (y :: newIt) [] [] =
      ((compareBody sorter (x :: oldIt) newIt [] []).1,
       y :: (compareBody sorter (x :: oldIt) newIt [] []).2) := by
  have h := compareBody_acc sorter (x :: oldIt) newIt [] [y]
  unfold compareBody at h ⊢
  rw [compareMainLoop, if_neg (by simp [hxy]), if_pos hyx]
  simpa using h

theorem compareBody_eq {α : Type} (sorter : α → α → Bool) (x y : α) (oldIt newIt : List α)
    (hxy : sorter x y = false) (hyx : sorter y x = false) :
    compareBody sorter (x :: oldIt) (y :: newIt) [] [] =
      compareBody sorter oldIt newIt [] [] := by
  unfold compareBody
  rw [compareMainLoop, if_neg (by simp [hxy]), if_neg (by simp [hyx])]

/-- When both inputs pass `isSorted`, the call returns what its body computes. -/
theorem compareSortedLists_of_sorted {α : Type} (QT_NO_DEBUG : Bool) (sorter : α → α → Bool)
    (oldList newList removedList addedList : List α)
    (hOld : isSorted sorter oldList = true) (hNew : isSorted sorter newList = true) :
    compareSortedLists QT_NO_DEBUG sorter oldList newList removedList addedList =
      Outcome.returned (compareBody sorter oldList newList removedList addedList) := by
  simp [compareSortedLists, Q_ASSERT, hOld, hNew]

/-- Swapping the two inputs swaps the two outputs, for an asymmetric comparator. -/
theorem compareBody_swap {α : Type} (less : α → α → Bool)
    (hasymm : ∀ a b, less a b = true → less b a = false) (A B : List α) :
    compareBody less B A [] [] =
      ((compareBody less A B [] []).2, (compareBody less A B [] []).1) := by
  induction A, B using compare_induction less with
  | nil_left newIt => rw [compareBody_nil_left, compareBody_nil_right]
  | nil_right x oldIt => rw [compareBody_nil_left, compareBody_nil_right]
  | lt x oldIt y newIt hxy ih =>
    rw [compareBody_gt less y x newIt oldIt (hasymm x y hxy) hxy, compareBody_lt less x y _ _ hxy, ih]
  | gt x oldIt y newIt hxy hyx ih =>
    rw [compareBody_lt less y x newIt oldIt hyx, compareBody_gt less x y _ _ hxy hyx, ih]
  | eq x oldIt y newIt hxy hyx ih =>
    rw [compareBody_eq less y x newIt oldIt hyx hxy, compareBody_eq less x y _ _ hxy hyx, ih]

/-- Every element reported as removed comes from the old list and has no
comparator-equal element in the new list. -/
theorem compareBody_removed_spec {α : Type} (less : α → α → Bool)
    (hswo : StrictWeakOrdering less) (A B : List α)
    (hA : isSorted less A = true) (hB : isSorted less B = true) :
    ∀ r ∈ (compareBody less A B [] []).1,
      r ∈ A ∧ ∀ b ∈ B, comparatorEqual less r b = false := by
  induction A, B using compare_induction less with
  | nil_left newIt =>
    rw [compareBody_nil_left]
    intro r hr; cases hr
  | nil_right x oldIt =>
    rw [compareBody_nil_right]
    intro r hr
    exact ⟨hr, fun b hb => by cases hb⟩
  | lt x oldIt y newIt hxy ih =>
    rw [compareBody_lt less x y _ _ hxy]
    intro r hr
    rcases List.mem_cons.1 hr with rfl | hr
    · refine ⟨List.mem_cons_self _ _, fun b hb => ?_⟩
      apply comparatorEqual_eq_false_of_lt
      rcases List.mem_cons.1 hb with rfl | hb
      · exact hxy
      · exact hswo.trans _ _ _ hxy (isSorted_head_lt hswo.trans y newIt hB b hb)
    · have h := ih (isSorted_tail less x oldIt hA) hB r hr
      exact ⟨List.mem_cons_of_mem _ h.1, h.2⟩
  | gt x oldIt y newIt hxy hyx ih =>
    rw [compareBody_gt less x y _ _ hxy hyx]
    intro r hr
    have h := ih hA (isSorted_tail less y newIt hB) r hr
    refine ⟨h.1, fun b hb => ?_⟩
    rcases List.mem_cons.1 hb with rfl | hb
    · apply comparatorEqual_eq_false_of_gt
      rcases List.mem_cons.1 h.1 with rfl | hr2
      · exact hyx
      · exact hswo.trans _ _ _ hyx (isSorted_head_lt hswo.trans x oldIt hA r hr2)
    · exact h.2 b hb
  | eq x oldIt y newIt hxy hyx ih =>
    rw [compareBody_eq less x y _ _ hxy hyx]
    intro r hr
    have h := ih (isSorted_tail less x oldIt hA) (isSorted_tail less y newIt hB) r hr
    refine ⟨List.mem_cons_of_mem _ h.1, fun b hb => ?_⟩
    rcases List.mem_cons.1 hb with rfl | hb
    · apply comparatorEqual_eq_false_of_gt
      have hyxe : comparatorEqual less b x = true := by
        rw [comparatorEqual_eq_true]; exact ⟨hyx, hxy⟩
      exact hswo.lt_of_equiv_of_lt hyxe (isSorted_head_lt hswo.trans x oldIt hA r h.1)
    · exact h.2 b hb

/-- Every element reported as added comes from the new list and has no
comparator-equal element in the old list. -/
theorem compareBody_added_spec {α : Type} (less : α → α → Bool)
    (hswo : StrictWeakOrdering less) (A B : List α)
    (hA : isSorted less A = true) (hB : isSorted less B = true) :
    ∀ r ∈ (compareBody less A B [] []).2,
      r ∈ B ∧ ∀ a ∈ A, comparatorEqual less r a = false := by
  have h := compareBody_removed_spec less hswo B A hB hA
  rw [compareBody_swap less (fun a b hab => hswo.asymm hab) A B] at h
  exact h

theorem compare_overlap_example (QT_NO_DEBUG : Bool) :
    compareSortedLists QT_NO_DEBUG natLess [1, 2, 3] [2, 3, 4] [] [] =
      Outcome.returned ([1], [4]) := by
  cases QT_NO_DEBUG <;>
  simp [compareSortedLists, Q_ASSERT, isSorted, isSortedLoop, natLess, compareBody,
    compareMainLoop, appendRemaining]

/-- C1 (diff correctness).  For a strict weak ordering `less` and lists `A`, `B` that both
pass `isSorted`, `compareSortedLists(A, B, removed, added, less)` started with empty
`removed` and `added` returns, every element of `removed` is an element of `A` with no
comparator-equal element in `B`, and every element of `added` is an element of `B` with
no comparator-equal element in `A`.  For `A = [1,2,3]`, `B = [2,3,4]` and numeric `<`
the call returns `removed = [1]`, `added = [4]`. -/
theorem compareSortedLists_diff_correct {α : Type} (QT_NO_DEBUG : Bool) (less : α → α → Bool)
    (hswo : StrictWeakOrdering less) (A B : List α)
    (hA : isSorted less A = true) (hB : isSorted less B = true) :
    (∃ removed added,
      compareSortedLists QT_NO_DEBUG less A B [] [] = Outcome.returned (removed, added) ∧
      (∀ x ∈ removed, x ∈ A ∧ ∀ b ∈ B, comparatorEqual less x b = false) ∧
      (∀ x ∈ added, x ∈ B ∧ ∀ a ∈ A, comparatorEqual less x a = false)) ∧
    compareSortedLists QT_NO_DEBUG natLess [1, 2, 3] [2, 3, 4] [] [] =
      Outcome.returned ([1], [4]) :=
  ⟨⟨(compareBody less A B [] []).1, (compareBody less A B [] []).2,
    compareSortedLists_of_sorted QT_NO_DEBUG less A B [] [] hA hB,
    compareBody_removed_spec less hswo A B hA hB,
    compareBody_added_spec less hswo A B hA hB⟩,
   compare_overlap_example QT_NO_DEBUG⟩

/-- C1 at `A = [1,2,3]`, `B = [2,3,4]` with numeric `<`, assertions enabled. -/
theorem compareSortedLists_diff_correct_witness :
    StrictWeakOrdering natLess ∧ isSorted natLess [1, 2, 3] = true ∧
    isSorted natLess [2, 3, 4] = true ∧
    ((∃ removed added,
      compareSortedLists false natLess [1, 2, 3] [2, 3, 4] [] [] =
        Outcome.returned (removed, added) ∧
      (∀ x ∈ removed, x ∈ [1, 2, 3] ∧ ∀ b ∈ [2, 3, 4], comparatorEqual natLess x b = false) ∧
      (∀ x ∈ added, x ∈ [2, 3, 4] ∧ ∀ a ∈ [1, 2, 3], comparatorEqual natLess x a = false)) ∧
    compareSortedLists false natLess [1, 2, 3] [2, 3, 4] [] [] =
      Outcome.returned ([1], [4])) :=
  ⟨natLess_strictWeakOrdering, by decide, by decide,
   compareSortedLists_diff_correct false natLess natLess_strictWeakOrdering
     [1, 2, 3] [2, 3, 4] (by decide) (by decide)⟩

/-- Whatever the comparator and the lists, the old list splits into the removed
elements and the matched ones, the new list into the added elements and the matched
ones, and the matched elements are comparator-equal pair by pair. -/
theorem compareBody_matched {α : Type} (less : α → α → Bool) (A B : List α) :
    ∃ keptOld keptNew : List α,
      List.Perm A ((compareBody less A B [] []).1 ++ keptOld) ∧
      List.Perm B ((compareBody less A B [] []).2 ++ keptNew) ∧
      List.Forall₂ (fun a b => comparatorEqual less a b = true) keptOld keptNew := by
  induction A, B using compare_induction less with
  | nil_left newIt =>
    refine ⟨[], [], ?_, ?_, List.Forall₂.nil⟩ <;> simp [compareBody_nil_left]
  | nil_right x oldIt =>
    refine ⟨[], [], ?_, ?_, List.Forall₂.nil⟩ <;> simp [compareBody_nil_right]
  | lt x oldIt y newIt hxy ih =>
    obtain ⟨kO, kN, hO, hN, hF⟩ := ih
    refine ⟨kO, kN, ?_, ?_, hF⟩
    · rw [compareBody_lt less x y _ _ hxy]
      exact List.Perm.cons x hO
    · rw [compareBody_lt less x y _ _ hxy]
      exact hN
  | gt x oldIt y newIt hxy hyx ih =>
    obtain ⟨kO, kN, hO, hN, hF⟩ := ih
    refine ⟨kO, kN, ?_, ?_, hF⟩
    · rw [compareBody_gt less x y _ _ hxy hyx]
      exact hO
    · rw [compareBody_gt less x y _ _ hxy hyx]
      exact List.Perm.cons y hN
  | eq x oldIt y newIt hxy hyx ih =>
    obtain ⟨kO, kN, hO, hN, hF⟩ := ih
    refine ⟨x :: kO, y :: kN, ?_, ?_, List.Forall₂.cons ?_ hF⟩
    · rw [compareBody_eq less x y _ _ hxy hyx]
      exact (List.Perm.cons x hO).trans List.perm_middle.symm
    · rw [compareBody_eq less x y _ _ hxy hyx]
      exact (List.Perm.cons y hN).trans List.perm_middle.symm
    · rw [comparatorEqual_eq_true]; exact ⟨hxy, hyx⟩

theorem forall₂_eq_of_identical {α : Type} (less : α → α → Bool)
    (hid : ∀ a b, comparatorEqual less a b = true → a = b) (k k2 : List α)
    (h : List.Forall₂ (fun a b => comparatorEqual less a b = true) k k2) : k = k2 := by
  induction h with
  | nil => rfl
  | cons hab _ ih => rw [hid _ _ hab, ih]

/-- When comparator-equal elements are identical, the old list minus the removed
elements plus the added elements is the new list, as multisets. -/
theorem compareBody_multiset {α : Type} [DecidableEq α] (less : α → α → Bool)
    (hid : ∀ a b, comparatorEqual less a b = true → a = b) (A B : List α) :
    ((A : Multiset α) - ((compareBody less A B [] []).1 : Multiset α)
      + ((compareBody less A B [] []).2 : Multiset α)) = (B : Multiset α) := by
  obtain ⟨kO, kN, hO, hN, hF⟩ := compareBody_matched less A B
  have hk := forall₂_eq_of_identical less hid kO kN hF
  subst hk
  have hA : (A : Multiset α) =
      ((compareBody less A B [] []).1 : Multiset α) + (kO : Multiset α) := by
    rw [Multiset.coe_add]; exact Multiset.coe_eq_coe.2 hO
  have hB : (B : Multiset α) =
      ((compareBody less A B [] []).2 : Multiset α) + (kO : Multiset α) := by
    rw [Multiset.coe_add]; exact Multiset.coe_eq_coe.2 hN
  rw [hA, hB, add_tsub_cancel_left, add_comm]

theorem natLess_identical (a b : Nat) (h : comparatorEqual natLess a b = true) : a = b := by
  simp only [comparatorEqual, natLess, Bool.and_eq_true, Bool.not_eq_true',
    decide_eq_false_iff_not] at h
  omega

/-! ### `subtractSortedList` -/

/-- Once the main loop of `subtractSortedList` meets an element of `list2` that is less
than the current element of `list1`, no number of iterations leaves the loop. -/
theorem subtractMainLoop_stuck {α : Type} (sorter : α → α → Bool) (x y : α)
    (list1It list2It : List α) (hxy : sorter x y = false) (hyx : sorter y x = true)
    (fuel : Nat) (result : List α) (warnings : Nat) :
    subtractMainLoop sorter fuel (x :: list1It) (y :: list2It) result warnings = none := by
  induction fuel generalizing warnings with
  | zero => rfl
  | succ fuel ih =>
    rw [subtractMainLoop, if_neg (by simp [hxy]), if_pos hyx]
    exact ih (warnings + 1)

/-- Whenever the main loop of `subtractSortedList` is left, `result` has only been
appended to, and what was appended followed by what is still ahead in `list1` is a
sublist of `list1`. -/
theorem subtractMainLoop_sublist {α : Type} (sorter : α → α → Bool) (fuel : Nat)
    (list1 list2 result : List α) (warnings : Nat)
    (it1 it2 res : List α) (w : Nat)
    (h : subtractMainLoop sorter fuel list1 list2 result warnings = some (it1, it2, res, w)) :
    ∃ mid, res = result ++ mid ∧ List.Sublist (mid ++ it1) list1 := by
  induction fuel generalizing list1 list2 result warnings with
  | zero => simp [subtractMainLoop] at h
  | succ fuel ih =>
    cases list1 with
    | nil =>
      simp only [subtractMainLoop, Option.some.injEq, Prod.mk.injEq] at h
      obtain ⟨h1, _, h3, _⟩ := h
      subst h1 h3
      exact ⟨[], by simp, by simp⟩
    | cons x xs =>
      cases list2 with
      | nil =>
        simp only [subtractMainLoop, Option.some.injEq, Prod.mk.injEq] at h
        obtain ⟨h1, _, h3, _⟩ := h
        subst h1 h3
        exact ⟨[], by simp, by simp⟩
      | cons y ys =>
        rw [subtractMainLoop] at h
        split at h
        · obtain ⟨mid, hres, hsub⟩ := ih _ _ _ _ h
          refine ⟨x :: mid, by simp [hres], ?_⟩
          exact List.Sublist.cons₂ x hsub
        · split at h
          · exact ih _ _ _ _ h
          · obtain ⟨mid, hres, hsub⟩ := ih _ _ _ _ h
            exact ⟨mid, hres, List.Sublist.cons x hsub⟩

/-- Under the intended precondition the main loop of `subtractSortedList` is left
within `list1.length + 1` iterations, writes no warning, and what it appended to
`result` followed by what is still ahead in `list1` is `list1` filtered by
`notMatchedBy`. -/
theorem subtractMainLoop_spec {α : Type} (less : α → α → Bool)
    (hswo : StrictWeakOrdering less) (list1 list2 : List α)
    (h1 : isSorted less list1 = true) (h2 : isSorted less list2 = true)
    (hsub : ∀ y ∈ list2, ∃ x ∈ list1, comparatorEqual less x y = true)
    (fuel : Nat) (hfuel : list1.length < fuel) (result : List α) (warnings : Nat) :
    ∃ it1 it2 mid,
      subtractMainLoop less fuel list1 list2 result warnings =
        some (it1, it2, result ++ mid, warnings) ∧
      mid ++ it1 = list1.filter (notMatchedBy less list2) ∧
      (mid ++ it1).length + list2.length = list1.length := by
  induction list1 generalizing list2 fuel result with
  | nil =>
    cases fuel with
    | zero => exact absurd hfuel (by simp)
    | succ fuel =>
      cases list2 with
      | nil => exact ⟨[], [], [], by simp [subtractMainLoop], by simp, by simp⟩
      | cons y ys =>
        obtain ⟨x, hx, _⟩ := hsub y (List.mem_cons_self _ _)
        cases hx
  | cons x xs ih =>
    cases fuel with
    | zero => exact absurd hfuel (by simp)
    | succ fuel =>
      have hfuel2 : xs.length < fuel := by simpa using hfuel
      cases list2 with
      | nil =>
        have hall : notMatchedBy less ([] : List α) = fun _ => true := by
          funext a; simp [notMatchedBy]
        refine ⟨x :: xs, [], [], by simp [subtractMainLoop], ?_, by simp⟩
        rw [hall]; simp
      | cons y ys =>
        have hxs := isSorted_tail less x xs h1
        have hx_lt := isSorted_head_lt hswo.trans x xs h1
        have hy_lt := isSorted_head_lt hswo.trans y ys h2
        cases hxy : less x y with
        | true =>
          have hx_all : ∀ b ∈ y :: ys, less x b = true := by
            intro b hb
            rcases List.mem_cons.1 hb with rfl | hb
            · exact hxy
            · exact hswo.trans _ _ _ hxy (hy_lt b hb)
          have hsub2 : ∀ b ∈ y :: ys, ∃ a ∈ xs, comparatorEqual less a b = true := by
            intro b hb
            obtain ⟨a, ha, hab⟩ := hsub b hb
            rcases List.mem_cons.1 ha with rfl | ha
            · rw [comparatorEqual_eq_false_of_lt less a b (hx_all b hb)] at hab
              exact absurd hab (by decide)
            · exact ⟨a, ha, hab⟩
          obtain ⟨it1, it2, mid, hrun, hfil, hlen⟩ :=
            ih (y :: ys) hxs h2 hsub2 fuel hfuel2 (result ++ [x])
          refine ⟨it1, it2, x :: mid, ?_, ?_, ?_⟩
          · rw [subtractMainLoop, if_pos hxy, hrun]; simp
          · have hnm : notMatchedBy less (y :: ys) x = true := by
              simp only [notMatchedBy, Bool.not_eq_true', List.any_eq_false]
              intro b hb
              simp [comparatorEqual_eq_false_of_lt less x b (hx_all b hb)]
            rw [List.filter_cons_of_pos hnm, ← hfil]; rfl
          · simp only [List.cons_append, List.length_cons] at hlen ⊢
            omega
        | false =>
          cases hyx : less y x with
          | true =>
            exfalso
            obtain ⟨a, ha, hay⟩ := hsub y (List.mem_cons_self _ _)
            have hya : less y a = true := by
              rcases List.mem_cons.1 ha with rfl | ha
              · exact hyx
              · exact hswo.trans _ _ _ hyx (hx_lt a ha)
            rw [comparatorEqual_eq_false_of_gt less a y hya] at hay
            exact absurd hay (by decide)
          | false =>
            have hxye : comparatorEqual less x y = true := by
              rw [comparatorEqual_eq_true]; exact ⟨hxy, hyx⟩
            have hyxe : comparatorEqual less y x = true := by
              rw [comparatorEqual_comm]; exact hxye
            have hsub2 : ∀ b ∈ ys, ∃ a ∈ xs, comparatorEqual less a b = true := by
              intro b hb
              obtain ⟨a, ha, hab⟩ := hsub b (List.mem_cons_of_mem _ hb)
              rcases List.mem_cons.1 ha with rfl | ha
              · have hlt := hswo.lt_of_equiv_of_lt hxye (hy_lt b hb)
                rw [comparatorEqual_eq_false_of_lt less a b hlt] at hab
                exact absurd hab (by decide)
              · exact ⟨a, ha, hab⟩
            obtain ⟨it1, it2, mid, hrun, hfil, hlen⟩ :=
              ih ys hxs (isSorted_tail less y ys h2) hsub2 fuel hfuel2 result
            refine ⟨it1, it2, mid, ?_, ?_, ?_⟩
            · rw [subtractMainLoop, if_neg (by simp [hxy]), if_neg (by simp [hyx]), hrun]
            · have hm : ¬ notMatchedBy less (y :: ys) x = true := by
                simp [notMatchedBy, hxye]
              rw [List.filter_cons_of_neg hm, hfil]
              apply List.filter_congr
              intro a ha
              have hya := hswo.lt_of_equiv_of_lt hyxe (hx_lt a ha)
              simp [notMatchedBy, comparatorEqual_eq_false_of_gt less a y hya]
            · simp only [List.length_cons] at hlen ⊢
              omega

/-- Under the intended precondition, with more than `list1.length` iterations allowed,
the body of `subtractSortedList` returns `list1` filtered by `notMatchedBy` and has
written no warning. -/
theorem subtractBody_spec {α : Type} (less : α → α → Bool)
    (hswo : StrictWeakOrdering less) (list1 list2 : List α)
    (h1 : isSorted less list1 = true) (h2 : isSorted less list2 = true)
    (hsub : ∀ y ∈ list2, ∃ x ∈ list1, comparatorEqual less x y = true)
    (fuel : Nat) (hfuel : list1.length < fuel) :
    subtractBody less fuel list1 list2 =
      Outcome.returned (list1.filter (notMatchedBy less list2), 0) ∧
    (list1.filter (notMatchedBy less list2)).length + list2.length = list1.length := by
  obtain ⟨it1, it2, mid, hrun, hfil, hlen⟩ :=
    subtractMainLoop_spec less hswo list1 list2 h1 h2 hsub fuel hfuel [] 0
  rw [hfil] at hlen
  refine ⟨?_, hlen⟩
  unfold subtractBody
  rw [hrun]
  simp [appendRemaining_eq, hfil]

/-- When both inputs pass `isSorted`, the call behaves as its body. -/
theorem subtractSortedList_of_sorted {α : Type} (QT_NO_DEBUG : Bool) (sorter : α → α → Bool)
    (fuel : Nat) (list1 list2 : List α)
    (h1 : isSorted sorter list1 = true) (h2 : isSorted sorter list2 = true) :
    subtractSortedList QT_NO_DEBUG sorter fuel list1 list2 =
      subtractBody sorter fuel list1 list2 := by
  simp [subtractSortedList, Q_ASSERT, h1, h2]

/-- C3 (subtract correctness).  For a strict weak ordering `less` and lists `L1`, `L2`
that pass `isSorted`, with every element of `L2` comparator-equal to some element of
`L1`: as soon as more than `len(L1)` loop iterations are allowed,
`subtractSortedList(L1, L2, less)` returns exactly the elements of `L1` that are
comparator-equal to no element of `L2`, in the order of `L1`, and the returned list has
length `len(L1) - len(L2)`. -/
theorem subtractSortedList_correct {α : Type} (QT_NO_DEBUG : Bool) (less : α → α → Bool)
    (hswo : StrictWeakOrdering less) (L1 L2 : List α)
    (h1 : isSorted less L1 = true) (h2 : isSorted less L2 = true)
    (hsub : ∀ y ∈ L2, ∃ x ∈ L1, comparatorEqual less x y = true)
    (fuel : Nat) (hfuel : L1.length < fuel) :
    ∃ result warnings,
      subtractSortedList QT_NO_DEBUG less fuel L1 L2 = Outcome.returned (result, warnings) ∧
      result = L1.filter (fun x => !L2.any (fun y => comparatorEqual less x y)) ∧
      result.length = L1.length - L2.length := by
  have h := subtractBody_spec less hswo L1 L2 h1 h2 hsub fuel hfuel
  refine ⟨L1.filter (notMatchedBy less L2), 0, ?_, rfl, ?_⟩
  · rw [subtractSortedList_of_sorted QT_NO_DEBUG less fuel L1 L2 h1 h2]; exact h.1
  · have := h.2; omega

/-- C3 at `L1 = [1,2,3,4]`, `L2 = [2,4]` with numeric `<` and five iterations allowed. -/
theorem subtractSortedList_correct_witness :
    StrictWeakOrdering natLess ∧
    isSorted natLess [1, 2, 3, 4] = true ∧ isSorted natLess [2, 4] = true ∧
    (∀ y ∈ [2, 4], ∃ x ∈ [1, 2, 3, 4], comparatorEqual natLess x y = true) ∧
    ∃ result warnings,
      subtractSortedList false natLess 5 [1, 2, 3, 4] [2, 4] =
        Outcome.returned (result, warnings) ∧
      result = [1, 2, 3, 4].filter (fun x => !List.any [2, 4] (fun y => comparatorEqual natLess x y)) ∧
      result.length = [1, 2, 3, 4].length - [2, 4].length :=
  ⟨natLess_strictWeakOrdering, by decide, by decide, by decide,
   subtractSortedList_correct false natLess natLess_strictWeakOrdering [1, 2, 3, 4] [2, 4]
     (by decide) (by decide) (by decide) 5 (by decide)⟩

/-- C4 (subtract with anomaly).  The claim does not hold of the code: the branch that
writes the warning moves neither iterator, so the loop never leaves it.  For
`subtractSortedList([1,3], [2], numeric <)` no number of loop iterations makes the call
return (the claim says it returns `[1,3]` after one warning). -/
theorem subtractSortedList_anomaly_never_returns (QT_NO_DEBUG : Bool) (fuel : Nat) :
    subtractSortedList QT_NO_DEBUG natLess fuel [1, 3] [2] = Outcome.running := by
  have hsorted : subtractSortedList QT_NO_DEBUG natLess fuel [1, 3] [2] =
      subtractBody natLess fuel [1, 3] [2] :=
    subtractSortedList_of_sorted QT_NO_DEBUG natLess fuel [1, 3] [2] (by decide) (by decide)
  rw [hsorted]
  cases fuel with
  | zero => rfl
  | succ fuel =>
    have hstuck := subtractMainLoop_stuck natLess 3 2 [] [] (by decide) (by decide) fuel [1] 0
    have hstep : subtractMainLoop natLess (fuel + 1) [1, 3] [2] [] 0 =
        subtractMainLoop natLess fuel [3] [2] [1] 0 := by
      rw [subtractMainLoop, if_pos (by decide)]; rfl
    unfold subtractBody
    rw [hstep, hstuck]

/-- C5 (termination).  `compareSortedLists` always ends (its main loop is defined by
recursion on the combined length of what is ahead of the two iterators, so a call either
returns or is aborted by an assertion), but `subtractSortedList` does not: on
`list1 = [2]`, `list2 = [1]` with numeric `<` its loop is still executing after any
number of iterations. -/
theorem compare_terminates_subtract_does_not :
    (∀ (α : Type) (QT_NO_DEBUG : Bool) (sorter : α → α → Bool)
      (oldList newList removedList addedList : List α),
      compareSortedLists QT_NO_DEBUG sorter oldList newList removedList addedList ≠
        Outcome.running) ∧
    (∀ (QT_NO_DEBUG : Bool) (fuel : Nat),
      subtractSortedList QT_NO_DEBUG natLess fuel [2] [1] = Outcome.running) := by
  constructor
  · intro α nd sorter oldList newList r a
    unfold compareSortedLists Q_ASSERT
    cases nd <;> cases isSorted sorter oldList <;> cases isSorted sorter newList <;> simp
  · intro nd fuel
    rw [subtractSortedList_of_sorted nd natLess fuel [2] [1] (by decide) (by decide)]
    unfold subtractBody
    rw [subtractMainLoop_stuck natLess 2 1 [] [] (by decide) (by decide) fuel [] 0]

/-! ### C6: `isSorted` -/

theorem isSorted_iff_adjacent {α : Type} (sorter : α → α → Bool) :
    ∀ l : List α, isSorted sorter l = true ↔
      ∀ (i : Nat) (h : i + 1 < l.length),
        sorter (l.get ⟨i, Nat.lt_of_succ_lt h⟩) (l.get ⟨i + 1, h⟩) = true
  | [] => by simp [isSorted]
  | [a] => by simp [isSorted, isSortedLoop]
  | a :: b :: t => by
    rw [isSorted_cons_cons, Bool.and_eq_true, isSorted_iff_adjacent sorter (b :: t)]
    constructor
    · rintro ⟨hab, ht⟩ i h
      cases i with
      | zero => exact hab
      | succ j => exact ht j (by simpa using h)
    · intro H
      exact ⟨H 0 (by simp), fun j hj => H (j + 1) (by simpa using hj)⟩

theorem isSorted_of_pairwise {α : Type} (sorter : α → α → Bool) (l : List α)
    (h : List.Pairwise (fun a b => sorter a b = true) l) : isSorted sorter l = true := by
  induction l with
  | nil => rfl
  | cons a l ih =>
    cases l with
    | nil => rfl
    | cons b l =>
      rw [isSorted_cons_cons, Bool.and_eq_true]
      rw [List.pairwise_cons] at h
      exact ⟨h.1 b (List.mem_cons_self _ _), ih h.2⟩

theorem isSorted_false_of_adjacent {α : Type} (sorter : α → α → Bool) (a b : α)
    (hab : sorter a b = false) (l1 l2 : List α) :
    isSorted sorter (l1 ++ a :: b :: l2) = false := by
  induction l1 with
  | nil => simp [isSorted_cons_cons, hab]
  | cons c l1 ih =>
    cases l1 with
    | nil =>
      rw [List.nil_append] at ih
      rw [List.singleton_append, isSorted_cons_cons, ih, Bool.and_false]
    | cons d l1 =>
      rw [List.cons_append, List.cons_append, isSorted_cons_cons]
      rw [List.cons_append] at ih
      rw [ih, Bool.and_false]

/-- C6.  For every list and every comparator, `isSorted(list, less)` is true exactly when
`less(a, b)` holds for every adjacent pair `(a, b)` of the list.  Hence it is true for the
empty list and for single-element lists, true for every strictly increasing list (given
as adjacent pairs or pairwise), and false for every list with an adjacent pair that is
comparator-equal (neither `less(a,b)` nor `less(b,a)`) or decreasing (`less(b,a)` and
not `less(a,b)`); `[1,1]` and `[2,1]` are rejected under numeric `<`. -/
theorem isSorted_characterisation {α : Type} (less : α → α → Bool) :
    (∀ l : List α, isSorted less l = true ↔
      ∀ (i : Nat) (h : i + 1 < l.length),
        less (l.get ⟨i, Nat.lt_of_succ_lt h⟩) (l.get ⟨i + 1, h⟩) = true) ∧
    isSorted less [] = true ∧
    (∀ x : α, isSorted less [x] = true) ∧
    (∀ l : List α, List.Pairwise (fun a b => less a b = true) l → isSorted less l = true) ∧
    (∀ (l1 l2 : List α) (a b : α), comparatorEqual less a b = true →
      isSorted less (l1 ++ a :: b :: l2) = false) ∧
    (∀ (l1 l2 : List α) (a b : α), less b a = true → less a b = false →
      isSorted less (l1 ++ a :: b :: l2) = false) ∧
    isSorted natLess [1, 1] = false ∧ isSorted natLess [2, 1] = false := by
  refine ⟨isSorted_iff_adjacent less, rfl, fun _ => rfl, isSorted_of_pairwise less,
    ?_, ?_, by decide, by decide⟩
  · intro l1 l2 a b hab
    rw [comparatorEqual_eq_true] at hab
    exact isSorted_false_of_adjacent less a b hab.1 l1 l2
  · intro l1 l2 a b _ hab
    exact isSorted_false_of_adjacent less a b hab l1 l2

/-- C6 at numeric `<`: `[1,2,4]` is accepted through the adjacent-pair criterion and as a
pairwise increasing list, `[0,3,3,5]` has a comparator-equal adjacent pair and `[0,5,3]` a
decreasing one. -/
theorem isSorted_characterisation_witness :
    isSorted natLess [1, 2, 4] = true ∧
    isSorted natLess [1, 2, 4] = true ∧
    isSorted natLess ([0] ++ 3 :: 3 :: [5]) = false ∧
    isSorted natLess ([0] ++ 5 :: 3 :: []) = false :=
  ⟨((isSorted_characterisation natLess).1 [1, 2, 4]).2 (by
      intro i h
      have hi : i = 0 ∨ i = 1 := by
        simp only [List.length_cons, List.length_nil] at h; omega
      rcases hi with rfl | rfl <;> rfl),
   (isSorted_characterisation natLess).2.2.2.1 [1, 2, 4] (by decide),
   (isSorted_characterisation natLess).2.2.2.2.1 [0] [5] 3 3 (by decide),
   (isSorted_characterisation natLess).2.2.2.2.2.1 [0] [] 5 3 (by decide) (by decide)⟩

/-! ### C7: the assertions -/

/-- C7 fails as stated: in a build with `QT_NO_DEBUG` the assertions are compiled out, and
a call on the unsorted list `[2,1]` returns a result, for both functions. -/
theorem asserts_compiled_out_counterexample :
    isSorted natLess [2, 1] = false ∧
    compareSortedLists true natLess [2, 1] [] [] [] = Outcome.returned ([2, 1], []) ∧
    subtractSortedList true natLess 1 [2, 1] [] = Outcome.returned ([2, 1], 0) := by
  refine ⟨by decide, ?_, by decide⟩
  simp [compareSortedLists, Q_ASSERT, compareBody, compareMainLoop, appendRemaining]

/-- C7 (amended).  In a build where `Q_ASSERT` is active (`QT_NO_DEBUG` not defined):
if either input list does not pass `isSorted`, a call of `compareSortedLists` and a call
of `subtractSortedList` end in an assertion failure instead of returning.  In every
build, if both lists pass `isSorted`, no assertion fails. -/
theorem asserts_check_sortedness {α : Type} (sorter : α → α → Bool) (list1 list2 : List α) :
    ((isSorted sorter list1 = false ∨ isSorted sorter list2 = false) →
      (∀ removedList addedList,
        compareSortedLists false sorter list1 list2 removedList addedList =
          Outcome.assertFailed) ∧
      (∀ fuel, subtractSortedList false sorter fuel list1 list2 = Outcome.assertFailed)) ∧
    (isSorted sorter list1 = true → isSorted sorter list2 = true →
      ∀ QT_NO_DEBUG,
        (∀ removedList addedList,
          compareSortedLists QT_NO_DEBUG sorter list1 list2 removedList addedList ≠
            Outcome.assertFailed) ∧
        (∀ fuel, subtractSortedList QT_NO_DEBUG sorter fuel list1 list2 ≠
          Outcome.assertFailed)) := by
  constructor
  · intro h
    rcases h with h | h
    · constructor
      · intro r a; simp [compareSortedLists, Q_ASSERT, h]
      · intro fuel; simp [subtractSortedList, Q_ASSERT, h]
    · constructor
      · intro r a; simp [compareSortedLists, Q_ASSERT, h]
      · intro fuel; simp [subtractSortedList, Q_ASSERT, h]
  · intro h1 h2 nd
    constructor
    · intro r a
      rw [compareSortedLists_of_sorted nd sorter list1 list2 r a h1 h2]
      simp
    · intro fuel
      rw [subtractSortedList_of_sorted nd sorter fuel list1 list2 h1 h2]
      unfold subtractBody
      split <;> simp

/-- C7 (amended) at numeric `<`: with assertions active the unsorted `[2,1]` makes both
calls fail, as first or as second list; the sorted `[1,2]` and `[2]` make no assertion
fail. -/
theorem asserts_check_sortedness_witness :
    ((∀ removedList addedList,
        compareSortedLists false natLess [2, 1] [] removedList addedList =
          Outcome.assertFailed) ∧
      (∀ fuel, subtractSortedList false natLess fuel [2, 1] [] = Outcome.assertFailed)) ∧
    ((∀ removedList addedList,
        compareSortedLists false natLess [] [2, 1] removedList addedList =
          Outcome.assertFailed) ∧
      (∀ fuel, subtractSortedList false natLess fuel [] [2, 1] = Outcome.assertFailed)) ∧
    (∀ QT_NO_DEBUG,
      (∀ removedList addedList,
        compareSortedLists QT_NO_DEBUG natLess [1, 2] [2] removedList addedList ≠
          Outcome.assertFailed) ∧
      (∀ fuel, subtractSortedList QT_NO_DEBUG natLess fuel [1, 2] [2] ≠
        Outcome.assertFailed)) :=
  ⟨(asserts_check_sortedness natLess [2, 1] []).1 (Or.inl (by decide)),
   (asserts_check_sortedness natLess [] [2, 1]).1 (Or.inr (by decide)),
   (asserts_check_sortedness natLess [1, 2] [2]).2 (by decide) (by decide)⟩

/-! ### C8: comparing a list with itself -/

theorem compareBody_self {α : Type} (less : α → α → Bool) (hirrefl : ∀ a, less a a = false)
    (A : List α) : compareBody less A A [] [] = ([], []) := by
  induction A with
  | nil => exact compareBody_nil_left less []
  | cons x A ih => rw [compareBody_eq less x x A A (hirrefl x) (hirrefl x), ih]

/-- C8 (idempotence).  For every list `A` that passes `isSorted` under the comparator
`less`, `compareSortedLists(A, A, less)` on empty accumulators returns `removed = []` and
`added = []`.  The comparator of the specification is a strict weak ordering; of it only
irreflexivity is used, so the theorem is stated for every irreflexive `less`. -/
theorem compareSortedLists_self {α : Type} (QT_NO_DEBUG : Bool) (less : α → α → Bool)
    (hirrefl : ∀ a, less a a = false) (A : List α) (hA : isSorted less A = true) :
    compareSortedLists QT_NO_DEBUG less A A [] [] = Outcome.returned ([], []) := by
  rw [compareSortedLists_of_sorted QT_NO_DEBUG less A A [] [] hA hA,
    compareBody_self less hirrefl A]

/-- C8 at `A = [1,2,3]` with numeric `<`, a strict weak ordering. -/
theorem compareSortedLists_self_witness :
    StrictWeakOrdering natLess ∧
    (∀ a, natLess a a = false) ∧ isSorted natLess [1, 2, 3] = true ∧
    compareSortedLists false natLess [1, 2, 3] [1, 2, 3] [] [] = Outcome.returned ([], []) :=
  ⟨natLess_strictWeakOrdering, natLess_strictWeakOrdering.irrefl, by decide,
   compareSortedLists_self false natLess natLess_strictWeakOrdering.irrefl [1, 2, 3]
     (by decide)⟩

/-! ### C9: append semantics -/

/-- C9.  `compareSortedLists` appends to its output lists: for all inputs and all initial
contents `r0`, `a0` of the output lists, the call ends the way the call on empty output
lists ends, and when that one returns `(removed, added)` it returns
`(r0 ++ removed, a0 ++ added)`; the same holds of what the loops compute, assertions
aside. -/
theorem compareSortedLists_appends {α : Type} (QT_NO_DEBUG : Bool) (sorter : α → α → Bool)
    (oldList newList r0 a0 : List α) :
    compareSortedLists QT_NO_DEBUG sorter oldList newList r0 a0 =
      Outcome.map (fun p => (r0 ++ p.1, a0 ++ p.2))
        (compareSortedLists QT_NO_DEBUG sorter oldList newList [] []) ∧
    compareBody sorter oldList newList r0 a0 =
      (r0 ++ (compareBody sorter oldList newList [] []).1,
       a0 ++ (compareBody sorter oldList newList [] []).2) := by
  refine ⟨?_, compareBody_acc sorter oldList newList r0 a0⟩
  unfold compareSortedLists Q_ASSERT
  rw [compareBody_acc sorter oldList newList r0 a0]
  cases QT_NO_DEBUG <;> cases isSorted sorter oldList <;> cases isSorted sorter newList <;>
    simp [Outcome.map]

/-! ### C10: order preservation -/

theorem compareBody_sublist {α : Type} (sorter : α → α → Bool) (oldList newList : List α) :
    List.Sublist (compareBody sorter oldList newList [] []).1 oldList ∧
    List.Sublist (compareBody sorter oldList newList [] []).2 newList := by
  induction oldList, newList using compare_induction sorter with
  | nil_left newIt => simp [compareBody_nil_left]
  | nil_right x oldIt => simp [compareBody_nil_right]
  | lt x oldIt y newIt hxy ih =>
    rw [compareBody_lt sorter x y _ _ hxy]
    exact ⟨List.Sublist.cons₂ x ih.1, ih.2⟩
  | gt x oldIt y newIt hxy hyx ih =>
    rw [compareBody_gt sorter x y _ _ hxy hyx]
    exact ⟨ih.1, List.Sublist.cons₂ y ih.2⟩
  | eq x oldIt y newIt hxy hyx ih =>
    rw [compareBody_eq sorter x y _ _ hxy hyx]
    exact ⟨List.Sublist.cons x ih.1, List.Sublist.cons y ih.2⟩

theorem subtractBody_sublist {α : Type} (sorter : α → α → Bool) (fuel : Nat)
    (list1 list2 result : List α) (warnings : Nat)
    (h : subtractBody sorter fuel list1 list2 = Outcome.returned (result, warnings)) :
    List.Sublist result list1 := by
  unfold subtractBody at h
  split at h
  · cases h
  · rename_i it1 it2 res w hrun
    obtain ⟨mid, hres, hsub⟩ := subtractMainLoop_sublist sorter fuel list1 list2 [] 0 _ _ _ _ hrun
    simp only [Outcome.returned.injEq, Prod.mk.injEq] at h
    rw [← h.1, appendRemaining_eq, hres]
    simpa using hsub

theorem returned_of_Q_ASSERT {β : Type} (QT_NO_DEBUG cond : Bool) (rest : Outcome β) (v : β)
    (h : Q_ASSERT QT_NO_DEBUG cond rest = Outcome.returned v) : rest = Outcome.returned v := by
  unfold Q_ASSERT at h
  cases QT_NO_DEBUG <;> cases cond <;> simp at h <;> exact h

/-- C10.  For all lists and every comparator: whenever `compareSortedLists`, started on
empty output lists, returns `(removed, added)`, `removed` is a subsequence of `oldList`
and `added` a subsequence of `newList` (and this holds of what its loops compute,
assertions aside); whenever `subtractSortedList(list1, list2, less)` returns, its result
is a subsequence of `list1`. -/
theorem results_preserve_order {α : Type} (sorter : α → α → Bool)
    (oldList newList : List α) :
    (List.Sublist (compareBody sorter oldList newList [] []).1 oldList ∧
      List.Sublist (compareBody sorter oldList newList [] []).2 newList) ∧
    (∀ QT_NO_DEBUG removed added,
      compareSortedLists QT_NO_DEBUG sorter oldList newList [] [] =
        Outcome.returned (removed, added) →
      List.Sublist removed oldList ∧ List.Sublist added newList) ∧
    (∀ QT_NO_DEBUG fuel result warnings,
      subtractSortedList QT_NO_DEBUG sorter fuel oldList newList =
        Outcome.returned (result, warnings) →
      List.Sublist result oldList) := by
  refine ⟨compareBody_sublist sorter oldList newList, ?_, ?_⟩
  · intro nd removed added h
    unfold compareSortedLists at h
    have h2 := returned_of_Q_ASSERT _ _ _ _ (returned_of_Q_ASSERT _ _ _ _ h)
    simp only [Outcome.returned.injEq] at h2
    have hs := compareBody_sublist sorter oldList newList
    rw [h2] at hs
    exact hs
  · intro nd fuel result warnings h
    unfold subtractSortedList at h
    have h2 := returned_of_Q_ASSERT _ _ _ _ (returned_of_Q_ASSERT _ _ _ _ h)
    exact subtractBody_sublist sorter fuel oldList newList result warnings h2

theorem subtract_example :
    subtractSortedList false natLess 4 [1, 2, 3] [2] = Outcome.returned ([1, 3], 0) := by
  decide

/-- C10 at `[1,2,3]` and `[2,3,4]` (compare) and at `[1,2,3]` minus `[2]` (subtract),
numeric `<`: both calls return, and what they return are subsequences. -/
theorem results_preserve_order_witness :
    (List.Sublist [1] [1, 2, 3] ∧ List.Sublist [4] [2, 3, 4]) ∧
    List.Sublist [1, 3] [1, 2, 3] :=
  ⟨(results_preserve_order natLess [1, 2, 3] [2, 3, 4]).2.1 false [1] [4]
     (compare_overlap_example false),
   (results_preserve_order natLess [1, 2, 3] [2]).2.2 false 4 [1, 3] 0 subtract_example⟩

/-! ### C11: lists without a common element -/

/-- When no element of the old list is comparator-equal to an element of the new list,
the loops report the old list whole as removed and the new list whole as added. -/
theorem compareBody_disjoint {α : Type} (less : α → α → Bool) (A B : List α)
    (hdisj : ∀ a ∈ A, ∀ b ∈ B, comparatorEqual less a b = false) :
    compareBody less A B [] [] = (A, B) := by
  induction A, B using compare_induction less with
  | nil_left newIt => exact compareBody_nil_left less newIt
  | nil_right x oldIt => exact compareBody_nil_right less (x :: oldIt)
  | lt x oldIt y newIt hxy ih =>
    rw [compareBody_lt less x y _ _ hxy,
      ih (fun a ha b hb => hdisj a (List.mem_cons_of_mem _ ha) b hb)]
  | gt x oldIt y newIt hxy hyx ih =>
    rw [compareBody_gt less x y _ _ hxy hyx,
      ih (fun a ha b hb => hdisj a ha b (List.mem_cons_of_mem _ hb))]
  | eq x oldIt y newIt hxy hyx ih =>
    have h := hdisj x (List.mem_cons_self _ _) y (List.mem_cons_self _ _)
    rw [(comparatorEqual_eq_true less x y).2 ⟨hxy, hyx⟩] at h
    exact absurd h (by decide)

theorem compare_disjoint_example (QT_NO_DEBUG : Bool) :
    compareSortedLists QT_NO_DEBUG natLess [1, 3, 5] [2, 4, 6] [] [] =
      Outcome.returned ([1, 3, 5], [2, 4, 6]) := by
  cases QT_NO_DEBUG <;>
  simp [compareSortedLists, Q_ASSERT, isSorted, isSortedLoop, natLess, compareBody,
    compareMainLoop, appendRemaining]

/-- C11 (diff disjoint case).  For every comparator `less` (a strict weak ordering in
particular) and lists `A`, `B` that pass `isSorted` and share no comparator-equal pair
of elements, `compareSortedLists(A, B, less)` on empty accumulators returns
`removed = A` and `added = B`.  For `A = [1,3,5]`, `B = [2,4,6]` and numeric `<` it
returns `removed = [1,3,5]`, `added = [2,4,6]`. -/
theorem compareSortedLists_disjoint {α : Type} (QT_NO_DEBUG : Bool) (less : α → α → Bool)
    (A B : List α) (hA : isSorted less A = true) (hB : isSorted less B = true)
    (hdisj : ∀ a ∈ A, ∀ b ∈ B, comparatorEqual less a b = false) :
    compareSortedLists QT_NO_DEBUG less A B [] [] = Outcome.returned (A, B) ∧
    compareSortedLists QT_NO_DEBUG natLess [1, 3, 5] [2, 4, 6] [] [] =
      Outcome.returned ([1, 3, 5], [2, 4, 6]) := by
  refine ⟨?_, compare_disjoint_example QT_NO_DEBUG⟩
  rw [compareSortedLists_of_sorted QT_NO_DEBUG less A B [] [] hA hB,
    compareBody_disjoint less A B hdisj]

/-- C11 at `A = [1,3,5]`, `B = [2,4,6]` with numeric `<`, a strict weak ordering. -/
theorem compareSortedLists_disjoint_witness :
    StrictWeakOrdering natLess ∧
    isSorted natLess [1, 3, 5] = true ∧ isSorted natLess [2, 4, 6] = true ∧
    (∀ a ∈ [1, 3, 5], ∀ b ∈ [2, 4, 6], comparatorEqual natLess a b = false) ∧
    (compareSortedLists false natLess [1, 3, 5] [2, 4, 6] [] [] =
      Outcome.returned ([1, 3, 5], [2, 4, 6]) ∧
    compareSortedLists false natLess [1, 3, 5] [2, 4, 6] [] [] =
      Outcome.returned ([1, 3, 5], [2, 4, 6])) :=
  ⟨natLess_strictWeakOrdering, by decide, by decide, by decide,
   compareSortedLists_disjoint false natLess [1, 3, 5] [2, 4, 6] (by decide) (by decide)
     (by decide)⟩

/-! ### C12: an empty input -/

theorem compare_empty_example (QT_NO_DEBUG : Bool) :
    compareSortedLists QT_NO_DEBUG natLess [] [1, 2, 3] [] [] =
      Outcome.returned ([], [1, 2, 3]) := by
  cases QT_NO_DEBUG <;>
  simp [compareSortedLists, Q_ASSERT, isSorted, isSortedLoop, natLess, compareBody,
    compareMainLoop, appendRemaining]

/-- C12 (diff empty case).  For every comparator: for every list `B` that passes
`isSorted`, `compareSortedLists([], B, less)` on empty accumulators returns
`removed = []`, `added = B`; for every such `A`, `compareSortedLists(A, [], less)`
returns `removed = A`, `added = []`; `compareSortedLists([], [], less)` returns
`removed = []`, `added = []`; and `compareSortedLists([], [1,2,3], <)` returns
`removed = []`, `added = [1,2,3]`. -/
theorem compareSortedLists_empty {α : Type} (QT_NO_DEBUG : Bool) (less : α → α → Bool) :
    (∀ B : List α, isSorted less B = true →
      compareSortedLists QT_NO_DEBUG less [] B [] [] = Outcome.returned ([], B)) ∧
    (∀ A : List α, isSorted less A = true →
      compareSortedLists QT_NO_DEBUG less A [] [] [] = Outcome.returned (A, [])) ∧
    compareSortedLists QT_NO_DEBUG less [] [] [] [] = Outcome.returned ([], []) ∧
    compareSortedLists QT_NO_DEBUG natLess [] [1, 2, 3] [] [] =
      Outcome.returned ([], [1, 2, 3]) := by
  refine ⟨?_, ?_, ?_, compare_empty_example QT_NO_DEBUG⟩
  · intro B hB
    rw [compareSortedLists_of_sorted QT_NO_DEBUG less [] B [] [] rfl hB,
      compareBody_nil_left]
  · intro A hA
    rw [compareSortedLists_of_sorted QT_NO_DEBUG less A [] [] [] hA rfl,
      compareBody_nil_right]
  · rw [compareSortedLists_of_sorted QT_NO_DEBUG less [] [] [] [] rfl rfl,
      compareBody_nil_left]

/-- C12 at numeric `<`: `[]` against `[1,2,3]` and `[4,7]` against `[]`. -/
theorem compareSortedLists_empty_witness :
    compareSortedLists false natLess [] [1, 2, 3] [] [] = Outcome.returned ([], [1, 2, 3]) ∧
    compareSortedLists false natLess [4, 7] [] [] [] = Outcome.returned ([4, 7], []) :=
  ⟨(compareSortedLists_empty false natLess).1 [1, 2, 3] (by decide),
   (compareSortedLists_empty false natLess).2.1 [4, 7] (by decide)⟩

/-! ### C13: duplicates -/

/-- With `QT_NO_DEBUG` the assertions are compiled out and a call returns what the
loops compute. -/
theorem compareSortedLists_release {α : Type} (sorter : α → α → Bool)
    (oldList newList removedList addedList : List α) :
    compareSortedLists true sorter oldList newList removedList addedList =
      Outcome.returned (compareBody sorter oldList newList removedList addedList) := by
  simp [compareSortedLists, Q_ASSERT]

/-- Under a strict weak ordering "not greater" is transitive. -/
theorem StrictWeakOrdering.not_gt_trans {α : Type} {less : α → α → Bool}
    (h : StrictWeakOrdering less) (a b c : α)
    (hab : (!less b a) = true) (hbc : (!less c b) = true) : (!less c a) = true := by
  simp only [Bool.not_eq_true'] at hab hbc ⊢
  cases hca : less c a with
  | false => rfl
  | true =>
    exfalso
    cases hbc2 : less b c with
    | true =>
      have hba := h.trans b c a hbc2 hca
      rw [hab] at hba
      exact absurd hba (by decide)
    | false =>
      have hequiv : comparatorEqual less b c = true := by
        rw [comparatorEqual_eq_true]; exact ⟨hbc2, hbc⟩
      have hba := h.lt_of_equiv_of_lt hequiv hca
      rw [hab] at hba
      exact absurd hba (by decide)

/-- If `x` is less than `y` and `b` is not less than `y`, then `x` is less than `b`. -/
theorem StrictWeakOrdering.lt_of_lt_of_not_gt {α : Type} {less : α → α → Bool}
    (h : StrictWeakOrdering less) {x y b : α} (hxy : less x y = true)
    (hby : less b y = false) : less x b = true := by
  cases hxb : less x b with
  | true => rfl
  | false =>
    exfalso
    cases hbx : less b x with
    | true =>
      have := h.trans b x y hbx hxy
      rw [hby] at this
      exact absurd this (by decide)
    | false =>
      have hequiv : comparatorEqual less b x = true := by
        rw [comparatorEqual_eq_true]; exact ⟨hbx, hxb⟩
      have := h.lt_of_equiv_of_lt hequiv hxy
      rw [hby] at this
      exact absurd this (by decide)

theorem nonDecreasing_tail {α : Type} (less : α → α → Bool) (a : α) (l : List α)
    (h : nonDecreasing less (a :: l) = true) : nonDecreasing less l = true :=
  isSorted_tail (fun a b => !less b a) a l h

/-- In a non-decreasing list no later element is less than the head. -/
theorem nonDecreasing_head_not_gt {α : Type} {less : α → α → Bool}
    (hswo : StrictWeakOrdering less) (a : α) (l : List α)
    (h : nonDecreasing less (a :: l) = true) : ∀ b ∈ l, less b a = false := by
  intro b hb
  have := @isSorted_head_lt α (fun a b => !less b a) hswo.not_gt_trans a l h b hb
  simpa using this

/-- An element less than the head of a non-decreasing list is less than all of it. -/
theorem lt_all_of_lt_head {α : Type} {less : α → α → Bool}
    (hswo : StrictWeakOrdering less) (x y : α) (l : List α)
    (h : nonDecreasing less (y :: l) = true) (hxy : less x y = true) :
    ∀ b ∈ y :: l, less x b = true := by
  intro b hb
  rcases List.mem_cons.1 hb with rfl | hb
  · exact hxy
  · exact hswo.lt_of_lt_of_not_gt hxy (nonDecreasing_head_not_gt hswo y l h b hb)

/-- A list whose elements are all greater than `x` has no element comparator-equal to
something comparator-equal to `x`. -/
theorem countP_equiv_eq_zero {α : Type} {less : α → α → Bool}
    (hswo : StrictWeakOrdering less) (x z : α) (l : List α)
    (hall : ∀ b ∈ l, less x b = true) (hxz : comparatorEqual less x z = true) :
    l.countP (fun e => comparatorEqual less e z) = 0 := by
  rw [List.countP_eq_zero]
  intro b hb hbz
  have hzb : comparatorEqual less z b = true := by
    rw [comparatorEqual_comm]; exact hbz
  have hxb := hswo.equivTrans x z b hxz hzb
  rw [comparatorEqual_eq_false_of_lt less x b (hall b hb)] at hxb
  exact absurd hxb (by decide)

/-- Comparator-equal elements are comparator-equal to the same elements. -/
theorem comparatorEqual_congr_left {α : Type} {less : α → α → Bool}
    (hswo : StrictWeakOrdering less) (x y z : α) (hxy : comparatorEqual less x y = true) :
    comparatorEqual less x z = comparatorEqual less y z := by
  have hyx : comparatorEqual less y x = true := by
    rw [comparatorEqual_comm]; exact hxy
  cases hxz : comparatorEqual less x z with
  | true => exact (hswo.equivTrans y x z hyx hxz).symm
  | false =>
    cases hyz : comparatorEqual less y z with
    | false => rfl
    | true =>
      have := hswo.equivTrans x y z hxy hyz
      rw [hxz] at this
      exact absurd this (by decide)

/-- On non-decreasing lists the loops report, for each value `z`, as many removed
elements comparator-equal to `z` as the old list has more of them than the new list. -/
theorem compareBody_removed_count {α : Type} (less : α → α → Bool)
    (hswo : StrictWeakOrdering less) (oldList newList : List α)
    (hOld : nonDecreasing less oldList = true) (hNew : nonDecreasing less newList = true)
    (z : α) :
    (compareBody less oldList newList [] []).1.countP (fun e => comparatorEqual less e z) =
      oldList.countP (fun e => comparatorEqual less e z) -
        newList.countP (fun e => comparatorEqual less e z) := by
  induction oldList, newList using compare_induction less with
  | nil_left newIt => simp [compareBody_nil_left]
  | nil_right x oldIt => simp [compareBody_nil_right]
  | lt x oldIt y newIt hxy ih =>
    have hrec := ih (nonDecreasing_tail less x oldIt hOld) hNew
    rw [compareBody_lt less x y _ _ hxy]
    simp only [List.countP_cons] at hrec ⊢
    cases hxz : comparatorEqual less x z with
    | true =>
      have hzero := countP_equiv_eq_zero hswo x z (y :: newIt)
        (lt_all_of_lt_head hswo x y newIt hNew hxy) hxz
      simp only [List.countP_cons] at hzero
      simp only [if_true] at hrec ⊢
      omega
    | false =>
      simp only [Bool.false_eq_true, if_false] at hrec ⊢
      omega
  | gt x oldIt y newIt hxy hyx ih =>
    have hrec := ih hOld (nonDecreasing_tail less y newIt hNew)
    rw [compareBody_gt less x y _ _ hxy hyx]
    simp only [List.countP_cons] at hrec ⊢
    cases hyz : comparatorEqual less y z with
    | true =>
      have hzero := countP_equiv_eq_zero hswo y z (x :: oldIt)
        (lt_all_of_lt_head hswo y x oldIt hOld hyx) hyz
      simp only [List.countP_cons] at hzero
      omega
    | false =>
      simp only [Bool.false_eq_true, if_false]
      omega
  | eq x oldIt y newIt hxy hyx ih =>
    have hrec := ih (nonDecreasing_tail less x oldIt hOld) (nonDecreasing_tail less y newIt hNew)
    rw [compareBody_eq less x y _ _ hxy hyx]
    have hcongr := comparatorEqual_congr_left hswo x y z
      ((comparatorEqual_eq_true less x y).2 ⟨hxy, hyx⟩)
    simp only [List.countP_cons, hcongr]
    cases comparatorEqual less y z <;> simp <;> omega

/-- The same for the added elements. -/
theorem compareBody_added_count {α : Type} (less : α → α → Bool)
    (hswo : StrictWeakOrdering less) (oldList newList : List α)
    (hOld : nonDecreasing less oldList = true) (hNew : nonDecreasing less newList = true)
    (z : α) :
    (compareBody less oldList newList [] []).2.countP (fun e => comparatorEqual less e z) =
      newList.countP (fun e => comparatorEqual less e z) -
        oldList.countP (fun e => comparatorEqual less e z) := by
  have h := compareBody_removed_count less hswo newList oldList hNew hOld z
  rw [compareBody_swap less (fun a b hab => hswo.asymm hab) oldList newList] at h
  exact h

/-- C13 (duplicates cancel one against one).  For a strict weak ordering `less` and
lists `old`, `new` that are non-decreasing under `less` (adjacent comparator-equal
elements allowed), the loops of `compareSortedLists` taken without the sortedness
assertion (a call with `QT_NO_DEBUG`, empty accumulators) return `(removed, added)`
where, for every value `x`, the number of elements of `removed` comparator-equal to `x`
is `max(0, c_old(x) - c_new(x))` and the number of elements of `added` comparator-equal
to `x` is `max(0, c_new(x) - c_old(x))`. -/
theorem compareSortedLists_duplicates {α : Type} (less : α → α → Bool)
    (hswo : StrictWeakOrdering less) (oldList newList : List α)
    (hOld : nonDecreasing less oldList = true) (hNew : nonDecreasing less newList = true) :
    ∃ removed added,
      compareSortedLists true less oldList newList [] [] = Outcome.returned (removed, added) ∧
      compareBody less oldList newList [] [] = (removed, added) ∧
      ∀ x : α,
        ((removed.countP (fun e => comparatorEqual less e x) : Nat) : Int) =
          max 0 (((oldList.countP (fun e => comparatorEqual less e x) : Nat) : Int) -
            ((newList.countP (fun e => comparatorEqual less e x) : Nat) : Int)) ∧
        ((added.countP (fun e => comparatorEqual less e x) : Nat) : Int) =
          max 0 (((newList.countP (fun e => comparatorEqual less e x) : Nat) : Int) -
            ((oldList.countP (fun e => comparatorEqual less e x) : Nat) : Int)) := by
  refine ⟨(compareBody less oldList newList [] []).1, (compareBody less oldList newList [] []).2,
    compareSortedLists_release less oldList newList [] [], rfl, fun x => ?_⟩
  have hr := compareBody_removed_count less hswo oldList newList hOld hNew x
  have ha := compareBody_added_count less hswo oldList newList hOld hNew x
  constructor
  · rw [hr]; omega
  · rw [ha]; omega

/-- C13 at `old = [1,1,2,3,3]`, `new = [1,2,2,3]` with numeric `<`: the call returns
`removed = [1,3]`, `added = [2]`, and the counts are as stated for every value. -/
theorem compareSortedLists_duplicates_witness :
    StrictWeakOrdering natLess ∧
    nonDecreasing natLess [1, 1, 2, 3, 3] = true ∧ nonDecreasing natLess [1, 2, 2, 3] = true ∧
    compareSortedLists true natLess [1, 1, 2, 3, 3] [1, 2, 2, 3] [] [] =
      Outcome.returned ([1, 3], [2]) ∧
    ∃ removed added,
      compareSortedLists true natLess [1, 1, 2, 3, 3] [1, 2, 2, 3] [] [] =
        Outcome.returned (removed, added) ∧
      compareBody natLess [1, 1, 2, 3, 3] [1, 2, 2, 3] [] [] = (removed, added) ∧
      ∀ x : Nat,
        ((removed.countP (fun e => comparatorEqual natLess e x) : Nat) : Int) =
          max 0 ((([1, 1, 2, 3, 3].countP (fun e => comparatorEqual natLess e x) : Nat) : Int) -
            (([1, 2, 2, 3].countP (fun e => comparatorEqual natLess e x) : Nat) : Int)) ∧
        ((added.countP (fun e => comparatorEqual natLess e x) : Nat) : Int) =
          max 0 ((([1, 2, 2, 3].countP (fun e => comparatorEqual natLess e x) : Nat) : Int) -
            (([1, 1, 2, 3, 3].countP (fun e => comparatorEqual natLess e x) : Nat) : Int)) :=
  ⟨natLess_strictWeakOrdering, by decide, by decide,
   by simp [compareSortedLists, Q_ASSERT, natLess, compareBody, compareMainLoop,
     appendRemaining],
   compareSortedLists_duplicates natLess natLess_strictWeakOrdering
     [1, 1, 2, 3, 3] [1, 2, 2, 3] (by decide) (by decide)⟩

/-! ### C14: the warning branch under the precondition -/

/-- C14.  For a strict weak ordering `less` and lists `list1`, `list2` that pass
`isSorted`, with every element of `list2` comparator-equal to some element of `list1`:
the run of `subtractSortedList(list1, list2, less)` never takes the branch where
`less(list2 element, list1 element)` holds (no warning is written), and the call
terminates: it returns as soon as more than `len(list1)` loop iterations are allowed. -/
theorem subtractSortedList_no_warning {α : Type} (QT_NO_DEBUG : Bool) (less : α → α → Bool)
    (hswo : StrictWeakOrdering less) (list1 list2 : List α)
    (h1 : isSorted less list1 = true) (h2 : isSorted less list2 = true)
    (hsub : ∀ y ∈ list2, ∃ x ∈ list1, comparatorEqual less x y = true)
    (fuel : Nat) (hfuel : list1.length < fuel) :
    ∃ result,
      subtractSortedList QT_NO_DEBUG less fuel list1 list2 = Outcome.returned (result, 0) := by
  refine ⟨list1.filter (notMatchedBy less list2), ?_⟩
  rw [subtractSortedList_of_sorted QT_NO_DEBUG less fuel list1 list2 h1 h2]
  exact (subtractBody_spec less hswo list1 list2 h1 h2 hsub fuel hfuel).1

/-- C14 at `list1 = [1,2,3,4]`, `list2 = [1,4]` with numeric `<`. -/
theorem subtractSortedList_no_warning_witness :
    StrictWeakOrdering natLess ∧
    isSorted natLess [1, 2, 3, 4] = true ∧ isSorted natLess [1, 4] = true ∧
    (∀ y ∈ [1, 4], ∃ x ∈ [1, 2, 3, 4], comparatorEqual natLess x y = true) ∧
    ∃ result,
      subtractSortedList false natLess 5 [1, 2, 3, 4] [1, 4] = Outcome.returned (result, 0) :=
  ⟨natLess_strictWeakOrdering, by decide, by decide, by decide,
   subtractSortedList_no_warning false natLess natLess_strictWeakOrdering [1, 2, 3, 4] [1, 4]
     (by decide) (by decide) (by decide) 5 (by decide)⟩

/-! ### C15: `subtractSortedList` against `compareSortedLists` -/

/-- Under the intended precondition of `subtractSortedList` the loops of
`compareSortedLists` report as removed the first list filtered by `notMatchedBy`, and
nothing as added. -/
theorem compareBody_of_covered {α : Type} (less : α → α → Bool)
    (hswo : StrictWeakOrdering less) (L1 L2 : List α)
    (h1 : isSorted less L1 = true) (h2 : isSorted less L2 = true)
    (hsub : ∀ y ∈ L2, ∃ x ∈ L1, comparatorEqual less x y = true) :
    compareBody less L1 L2 [] [] = (L1.filter (notMatchedBy less L2), []) := by
  induction L1, L2 using compare_induction less with
  | nil_left newIt =>
    cases newIt with
    | nil => simp [compareBody_nil_left]
    | cons y ys =>
      obtain ⟨x, hx, _⟩ := hsub y (List.mem_cons_self _ _)
      cases hx
  | nil_right x oldIt =>
    have hall : notMatchedBy less ([] : List α) = fun _ => true := by
      funext a; simp [notMatchedBy]
    rw [compareBody_nil_right, hall]; simp
  | lt x oldIt y newIt hxy ih =>
    have hy_lt := isSorted_head_lt hswo.trans y newIt h2
    have hx_all : ∀ b ∈ y :: newIt, less x b = true := by
      intro b hb
      rcases List.mem_cons.1 hb with rfl | hb
      · exact hxy
      · exact hswo.trans _ _ _ hxy (hy_lt b hb)
    have hsub2 : ∀ b ∈ y :: newIt, ∃ a ∈ oldIt, comparatorEqual less a b = true := by
      intro b hb
      obtain ⟨a, ha, hab⟩ := hsub b hb
      rcases List.mem_cons.1 ha with rfl | ha
      · rw [comparatorEqual_eq_false_of_lt less a b (hx_all b hb)] at hab
        exact absurd hab (by decide)
      · exact ⟨a, ha, hab⟩
    have hnm : notMatchedBy less (y :: newIt) x = true := by
      simp only [notMatchedBy, Bool.not_eq_true', List.any_eq_false]
      intro b hb
      simp [comparatorEqual_eq_false_of_lt less x b (hx_all b hb)]
    rw [compareBody_lt less x y _ _ hxy, ih (isSorted_tail less x oldIt h1) h2 hsub2,
      List.filter_cons_of_pos hnm]
  | gt x oldIt y newIt hxy hyx ih =>
    exfalso
    obtain ⟨a, ha, hay⟩ := hsub y (List.mem_cons_self _ _)
    have hya : less y a = true := by
      rcases List.mem_cons.1 ha with rfl | ha
      · exact hyx
      · exact hswo.trans _ _ _ hyx (isSorted_head_lt hswo.trans x oldIt h1 a ha)
    rw [comparatorEqual_eq_false_of_gt less a y hya] at hay
    exact absurd hay (by decide)
  | eq x oldIt y newIt hxy hyx ih =>
    have hx_lt := isSorted_head_lt hswo.trans x oldIt h1
    have hy_lt := isSorted_head_lt hswo.trans y newIt h2
    have hxye : comparatorEqual less x y = true := by
      rw [comparatorEqual_eq_true]; exact ⟨hxy, hyx⟩
    have hyxe : comparatorEqual less y x = true := by
      rw [comparatorEqual_comm]; exact hxye
    have hsub2 : ∀ b ∈ newIt, ∃ a ∈ oldIt, comparatorEqual less a b = true := by
      intro b hb
      obtain ⟨a, ha, hab⟩ := hsub b (List.mem_cons_of_mem _ hb)
      rcases List.mem_cons.1 ha with rfl | ha
      · have hlt := hswo.lt_of_equiv_of_lt hxye (hy_lt b hb)
        rw [comparatorEqual_eq_false_of_lt less a b hlt] at hab
        exact absurd hab (by decide)
      · exact ⟨a, ha, hab⟩
    have hm : ¬ notMatchedBy less (y :: newIt) x = true := by
      simp [notMatchedBy, hxye]
    rw [compareBody_eq less x y _ _ hxy hyx,
      ih (isSorted_tail less x oldIt h1) (isSorted_tail less y newIt h2) hsub2,
      List.filter_cons_of_neg hm]
    congr 1
    apply List.filter_congr
    intro a ha
    have hya := hswo.lt_of_equiv_of_lt hyxe (hx_lt a ha)
    simp [notMatchedBy, comparatorEqual_eq_false_of_gt less a y hya]

/-- C15.  For a strict weak ordering `less` and lists `L1`, `L2` that pass `isSorted`,
with every element of `L2` comparator-equal to some element of `L1`:
`subtractSortedList(L1, L2, less)` returns (as soon as more than `len(L1)` loop
iterations are allowed) the list that `compareSortedLists(L1, L2, less)` returns as
removed from empty accumulators, and that call returns an empty added list. -/
theorem subtractSortedList_eq_removed {α : Type} (QT_NO_DEBUG : Bool) (less : α → α → Bool)
    (hswo : StrictWeakOrdering less) (L1 L2 : List α)
    (h1 : isSorted less L1 = true) (h2 : isSorted less L2 = true)
    (hsub : ∀ y ∈ L2, ∃ x ∈ L1, comparatorEqual less x y = true)
    (fuel : Nat) (hfuel : L1.length < fuel) :
    ∃ removed warnings,
      subtractSortedList QT_NO_DEBUG less fuel L1 L2 = Outcome.returned (removed, warnings) ∧
      compareSortedLists QT_NO_DEBUG less L1 L2 [] [] = Outcome.returned (removed, []) := by
  refine ⟨L1.filter (notMatchedBy less L2), 0, ?_, ?_⟩
  · rw [subtractSortedList_of_sorted QT_NO_DEBUG less fuel L1 L2 h1 h2]
    exact (subtractBody_spec less hswo L1 L2 h1 h2 hsub fuel hfuel).1
  · rw [compareSortedLists_of_sorted QT_NO_DEBUG less L1 L2 [] [] h1 h2,
      compareBody_of_covered less hswo L1 L2 h1 h2 hsub]

/-- C15 at `L1 = [1,2,3,4]`, `L2 = [2,3]` with numeric `<`. -/
theorem subtractSortedList_eq_removed_witness :
    StrictWeakOrdering natLess ∧
    isSorted natLess [1, 2, 3, 4] = true ∧ isSorted natLess [2, 3] = true ∧
    (∀ y ∈ [2, 3], ∃ x ∈ [1, 2, 3, 4], comparatorEqual natLess x y = true) ∧
    ∃ removed warnings,
      subtractSortedList false natLess 5 [1, 2, 3, 4] [2, 3] =
        Outcome.returned (removed, warnings) ∧
      compareSortedLists false natLess [1, 2, 3, 4] [2, 3] [] [] =
        Outcome.returned (removed, []) :=
  ⟨natLess_strictWeakOrdering, by decide, by decide, by decide,
   subtractSortedList_eq_removed false natLess natLess_strictWeakOrdering [1, 2, 3, 4] [2, 3]
     (by decide) (by decide) (by decide) 5 (by decide)⟩

/-! ### C16: swapping the inputs -/

/-- C16.  For every asymmetric comparator `less` and all lists `A`, `B`: if
`compareSortedLists(A, B, less)` on empty accumulators returns `(removed, added)`, then
`compareSortedLists(B, A, less)` on empty accumulators returns `(added, removed)`. -/
theorem compareSortedLists_swap {α : Type} (QT_NO_DEBUG : Bool) (less : α → α → Bool)
    (hasymm : ∀ a b, less a b = true → less b a = false) (A B removed added : List α)
    (h : compareSortedLists QT_NO_DEBUG less A B [] [] = Outcome.returned (removed, added)) :
    compareSortedLists QT_NO_DEBUG less B A [] [] = Outcome.returned (added, removed) := by
  have hswap := compareBody_swap less hasymm A B
  cases QT_NO_DEBUG with
  | true =>
    rw [compareSortedLists_release] at h ⊢
    simp only [Outcome.returned.injEq] at h
    rw [hswap, h]
  | false =>
    cases hA : isSorted less A with
    | false => simp [compareSortedLists, Q_ASSERT, hA] at h
    | true =>
      cases hB : isSorted less B with
      | false => simp [compareSortedLists, Q_ASSERT, hA, hB] at h
      | true =>
        rw [compareSortedLists_of_sorted false less A B [] [] hA hB] at h
        rw [compareSortedLists_of_sorted false less B A [] [] hB hA]
        simp only [Outcome.returned.injEq] at h
        rw [hswap, h]

/-- C16 at `A = [1,2,3]`, `B = [2,3,4]` with numeric `<`. -/
theorem compareSortedLists_swap_witness :
    (∀ a b, natLess a b = true → natLess b a = false) ∧
    compareSortedLists false natLess [1, 2, 3] [2, 3, 4] [] [] = Outcome.returned ([1], [4]) ∧
    compareSortedLists false natLess [2, 3, 4] [1, 2, 3] [] [] = Outcome.returned ([4], [1]) :=
  ⟨fun _ _ hab => natLess_strictWeakOrdering.asymm hab, compare_overlap_example false,
   compareSortedLists_swap false natLess (fun _ _ hab => natLess_strictWeakOrdering.asymm hab)
     [1, 2, 3] [2, 3, 4] [1] [4] (compare_overlap_example false)⟩

/-! ### C17: lengths -/

/-- C17.  For every comparator and all lists `old`, `new`, sorted or not, the loops of
`compareSortedLists` taken without the assertion (a call with `QT_NO_DEBUG`, empty
accumulators) return `(removed, added)` with `len(removed) <= len(old)`,
`len(added) <= len(new)` and `len(old) - len(removed) = len(new) - len(added)`. -/
theorem compareSortedLists_lengths {α : Type} (sorter : α → α → Bool)
    (oldList newList : List α) :
    ∃ removed added,
      compareSortedLists true sorter oldList newList [] [] =
        Outcome.returned (removed, added) ∧
      compareBody sorter oldList newList [] [] = (removed, added) ∧
      removed.length ≤ oldList.length ∧ added.length ≤ newList.length ∧
      oldList.length - removed.length = newList.length - added.length := by
  obtain ⟨kO, kN, hO, hN, hF⟩ := compareBody_matched sorter oldList newList
  have hlO := hO.length_eq
  have hlN := hN.length_eq
  have hlk := hF.length_eq
  rw [List.length_append] at hlO hlN
  exact ⟨(compareBody sorter oldList newList [] []).1,
    (compareBody sorter oldList newList [] []).2,
    compareSortedLists_release sorter oldList newList [] [], rfl,
    by omega, by omega, by omega⟩

/-! ### C2: the multiset identity -/

/-- A list that passes `isSorted` under an asymmetric comparator is non-decreasing. -/
theorem nonDecreasing_of_isSorted {α : Type} (less : α → α → Bool)
    (hasymm : ∀ a b, less a b = true → less b a = false) (l : List α)
    (h : isSorted less l = true) : nonDecreasing less l = true := by
  induction l with
  | nil => rfl
  | cons a l ih =>
    cases l with
    | nil => rfl
    | cons b l =>
      rw [isSorted_cons_cons, Bool.and_eq_true] at h
      unfold nonDecreasing at ih ⊢
      rw [isSorted_cons_cons, Bool.and_eq_true]
      exact ⟨by simp [hasymm a b h.1], ih h.2⟩

/-- C2 (diff reconstruction).  For a strict weak ordering `less` and lists `A`, `B` that
pass `isSorted`, the call on empty accumulators returns `(removed, added)` such that the
multiset of `A`, minus the elements of `removed`, plus the elements of `added`, is the
multiset of `B`, elements being told apart by the comparator only: for every value `x`
the number of elements comparator-equal to `x` in `A`, minus that in `removed` (which is
not larger), plus that in `added`, is that in `B`.  Moreover `A` is a permutation of
`removed` followed by a list `keptOld`, `B` a permutation of `added` followed by a list
`keptNew`, with `keptOld` and `keptNew` comparator-equal position by position; and when
comparator-equal elements are identical, `A - removed + added = B` as multisets of
elements. -/
theorem compareSortedLists_multiset {α : Type} (QT_NO_DEBUG : Bool)
    (less : α → α → Bool) (hswo : StrictWeakOrdering less) (A B : List α)
    (hA : isSorted less A = true) (hB : isSorted less B = true) :
    ∃ removed added,
      compareSortedLists QT_NO_DEBUG less A B [] [] = Outcome.returned (removed, added) ∧
      (∀ x : α,
        removed.countP (fun e => comparatorEqual less e x) ≤
          A.countP (fun e => comparatorEqual less e x) ∧
        A.countP (fun e => comparatorEqual less e x)
          - removed.countP (fun e => comparatorEqual less e x)
          + added.countP (fun e => comparatorEqual less e x) =
          B.countP (fun e => comparatorEqual less e x)) ∧
      (∃ keptOld keptNew : List α,
        List.Perm A (removed ++ keptOld) ∧ List.Perm B (added ++ keptNew) ∧
        List.Forall₂ (fun a b => comparatorEqual less a b = true) keptOld keptNew) ∧
      (∀ [DecidableEq α], (∀ a b, comparatorEqual less a b = true → a = b) →
        ((A : Multiset α) - (removed : Multiset α) + (added : Multiset α)) =
          (B : Multiset α)) := by
  have hasymm : ∀ a b, less a b = true → less b a = false := fun a b hab => hswo.asymm hab
  have hA2 := nonDecreasing_of_isSorted less hasymm A hA
  have hB2 := nonDecreasing_of_isSorted less hasymm B hB
  refine ⟨(compareBody less A B [] []).1, (compareBody less A B [] []).2,
    compareSortedLists_of_sorted QT_NO_DEBUG less A B [] [] hA hB, ?_,
    compareBody_matched less A B, ?_⟩
  · intro x
    have hr := compareBody_removed_count less hswo A B hA2 hB2 x
    have ha := compareBody_added_count less hswo A B hA2 hB2 x
    constructor <;> omega
  · intro inst hid
    exact compareBody_multiset less hid A B

/-- C2 at `A = [1,2,3]`, `B = [2,3,4]` with numeric `<`, where comparator-equal numbers
are identical. -/
theorem compareSortedLists_multiset_witness :
    StrictWeakOrdering natLess ∧
    isSorted natLess [1, 2, 3] = true ∧ isSorted natLess [2, 3, 4] = true ∧
    ∃ removed added,
      compareSortedLists false natLess [1, 2, 3] [2, 3, 4] [] [] =
        Outcome.returned (removed, added) ∧
      (∀ x : Nat,
        removed.countP (fun e => comparatorEqual natLess e x) ≤
          [1, 2, 3].countP (fun e => comparatorEqual natLess e x) ∧
        [1, 2, 3].countP (fun e => comparatorEqual natLess e x)
          - removed.countP (fun e => comparatorEqual natLess e x)
          + added.countP (fun e => comparatorEqual natLess e x) =
          [2, 3, 4].countP (fun e => comparatorEqual natLess e x)) ∧
      (((([1, 2, 3] : List Nat) : Multiset Nat) - (removed : Multiset Nat)
          + (added : Multiset Nat)) = (([2, 3, 4] : List Nat) : Multiset Nat)) :=
  ⟨natLess_strictWeakOrdering, by decide, by decide,
   match compareSortedLists_multiset false natLess natLess_strictWeakOrdering
     [1, 2, 3] [2, 3, 4] (by decide) (by decide) with
   | ⟨removed, added, hret, hcount, _, hexact⟩ =>
     ⟨removed, added, hret, hcount, hexact natLess_identical⟩⟩

end ProjectExplorer
